import Mathlib

/-!
Verification of the CloudMon metrics-processor evaluation pipeline.

This file contains a shallow embedding of the relevant parts of the
repository (src/common.rs, src/types.rs, src/sd.rs, src/api/v1.rs) and
theorems about them.  Conventions of the embedding:

* Rust `HashMap` values are modelled as association lists; `alGet` is
  `HashMap::get`, `rowPut` is `HashMap::insert` (update-or-append).
* The `BTreeMap<u32, _>` of `get_service_health` is modelled as an
  association list kept sorted by key (`btPut`), so iteration order is
  ascending by timestamp as for the Rust type.
* `f32` sample values and thresholds are modelled as exact rationals;
  none of the verified claims depends on rounding of binary floats.
* The external `evalexpr` crate (`eval_boolean_with_context`) is not
  part of the repository; expression evaluation is therefore a
  parameter `evalB : EvalFn` of the evaluator, returning either a
  boolean or an evaluation error, exactly as the crate's API does.
* The Graphite HTTP fetch is out of the modelled slice; the parsed
  response (`Vec<GraphiteData>`) is passed to `get_service_health` as
  an argument `raw`.
* The two `.unwrap()` calls that can actually fail in
  `get_service_health` (the per-target environment lookup) are modelled
  by an `Option` wrapper around the whole result: `none` stands for a
  panic of the Rust code.
-/

/-- Comparison type, from `src/types.rs` (`enum CmpType`). -/
inductive CmpType where
  | Lt
  | Gt
  | Eq
deriving DecidableEq, Repr

/-- Compiled flag metric, from `src/types.rs` (`struct FlagMetric`).
The query string is carried along but only used to build the Graphite
request, which is outside the modelled slice. -/
structure FlagMetric where
  query : String
  op : CmpType
  threshold : ℚ
deriving DecidableEq, Repr

/-- Weighted boolean expression, from `src/types.rs`
(`struct MetricExpressionDef`); the weight is parsed as `i32`. -/
structure MetricExpressionDef where
  expression : String
  weight : Int
deriving DecidableEq, Repr

/-- Health definition of one service, from `src/types.rs`
(`struct ServiceHealthDef`). -/
structure ServiceHealthDef where
  service : String
  component_name : Option String
  category : String
  metrics : List String
  expressions : List MetricExpressionDef
deriving DecidableEq, Repr

/-- One parsed Graphite series, from `src/graphite.rs`
(`struct GraphiteData`): a target name and `(value, ts)` datapoints
where a missing value is a JSON null. -/
structure GraphiteData where
  target : String
  datapoints : List (Option ℚ × Nat)
deriving DecidableEq, Repr

/-- Error taxonomy of the evaluator, from `src/types.rs`
(`enum CloudMonError`). -/
inductive CloudMonError where
  | ServiceNotSupported
  | EnvNotSupported
  | ExpressionError
  | GraphiteError
deriving DecidableEq, Repr

/-- Service health result type, from `src/types.rs`:
`pub type ServiceHealthData = Vec<(u32, u8)>;` — a list of
(timestamp, weight) pairs and nothing else. -/
abbrev ServiceHealthData := List (Nat × Nat)

/-- `HashMap::get` on an association list. -/
def alGet {α : Type} (k : String) : List (String × α) → Option α
  | [] => none
  | (k1, v) :: rest => if k1 = k then some v else alGet k rest

/-- `HashMap::insert` on an association list: update the existing
binding of the key or append a fresh one. -/
def rowPut {α : Type} (k : String) (v : α) : List (String × α) → List (String × α)
  | [] => [(k, v)]
  | (k1, v1) :: rest => if k1 = k then (k, v) :: rest else (k1, v1) :: rowPut k v rest

/-- `BTreeMap::entry(ts).or_default().insert(tgt, v)` on a sorted
association list of rows. -/
def btPut (ts : Nat) (tgt : String) (v : Bool) :
    List (Nat × List (String × Bool)) → List (Nat × List (String × Bool))
  | [] => [(ts, [(tgt, v)])]
  | (t1, row) :: rest =>
    if ts < t1 then (ts, [(tgt, v)]) :: (t1, row) :: rest
    else if ts = t1 then (t1, rowPut tgt v row) :: rest
    else (t1, row) :: btPut ts tgt v rest

/-- The modelled slice of `AppState` (`src/types.rs`): the compiled
flag-metric table `metric_id → environment → FlagMetric` and the
health-definition table `service → ServiceHealthDef`. -/
structure AppState where
  flag_metrics : List (String × List (String × FlagMetric))
  health_metrics : List (String × ServiceHealthDef)

/-- Flag engine, from `src/common.rs` (`get_metric_flag_state`):
convert an optional raw value to a boolean flag. -/
def get_metric_flag_state (value : Option ℚ) (metric : FlagMetric) : Bool :=
  match value with
  | some x =>
    match metric.op with
    | CmpType.Lt => decide (x < metric.threshold)
    | CmpType.Gt => decide (x > metric.threshold)
    | CmpType.Eq => decide (x = metric.threshold)
  | none => false

/-- The `i32 → u8` cast (`expr.weight as u8` in `src/common.rs`):
two's-complement truncation to the low 8 bits. -/
def wu8 (w : Int) : Nat := (w % 256).toNat

/-- `metric.replace("-", "_")` on a metric identifier. -/
def dashToUnderscore (s : String) : String :=
  ⟨s.data.map (fun c => if c = '-' then '_' else c)⟩

/-- An expression-evaluation context: metric identifier → boolean
(the `HashMapContext` of the evalexpr crate). -/
abbrev Ctx := List (String × Bool)

/-- The external `eval_boolean_with_context` of the evalexpr crate,
modelled as a parameter: it yields a boolean or an evaluation error. -/
abbrev EvalFn := String → Ctx → Except Unit Bool

/-- Context construction for one timestamp, from `src/common.rs` lines
107-117: bind every metric of the service (with dashes rewritten to
underscores) to its stored flag, or `false` when no flag is stored. -/
def contextAt (metrics : List String) (row : List (String × Bool)) : Ctx :=
  metrics.foldl (fun ctx m => rowPut (dashToUnderscore m) ((alGet m row).getD false) ctx) []

/-- Expression walk for one timestamp, from `src/common.rs` lines
118-147: walk the expressions in declared order keeping the best weight
(`expression_res`); an expression whose weight (as u8) does not exceed
the current best is skipped without being evaluated; an evaluation
error aborts with `ExpressionError`. -/
def evalExprsAux (evalB : EvalFn) (ctx : Ctx) (best : Nat) :
    List MetricExpressionDef → Except CloudMonError Nat
  | [] => Except.ok best
  | e :: rest =>
    if wu8 e.weight ≤ best then evalExprsAux evalB ctx best rest
    else
      match evalB e.expression ctx with
      | Except.ok true => evalExprsAux evalB ctx (wu8 e.weight) rest
      | Except.ok false => evalExprsAux evalB ctx best rest
      | Except.error _ => Except.error CloudMonError.ExpressionError

/-- Specification-side definition, written from the spec's words
(§8 invariant 4): the weight at a timestamp is the maximum among the
(u8) weights of the expressions that evaluate to true, and 0 when none
does.  To be compared against the source-derived `evalExprsAux`. -/
def spec_max_true_weight (evalB : EvalFn) (ctx : Ctx) (exprs : List MetricExpressionDef) : Nat :=
  exprs.foldl
    (fun acc e =>
      match evalB e.expression ctx with
      | Except.ok true => max acc (wu8 e.weight)
      | _ => acc)
    0

/-- Specification-side definition, written from the spec's words: the
`triggered` list of a ServiceHealthPoint — the metric ids whose boolean
binding in that timestamp's context is true. -/
def spec_triggered (metrics : List String) (row : List (String × Bool)) : List String :=
  metrics.filter (fun m => (alGet (dashToUnderscore m) (contextAt metrics row)).getD false)

/-- Target-map construction, from `src/common.rs` lines 38-56: for each
metric of the service, look it up in the flag-metric table; a metric
with no table entry at all is silently skipped; one whose entry lacks
the requested environment aborts with `EnvNotSupported`. -/
def buildTargetsGo (fm : List (String × List (String × FlagMetric))) (env : String)
    (acc : List (String × String)) :
    List String → Except CloudMonError (List (String × String))
  | [] => Except.ok acc
  | m :: rest =>
    match alGet m fm with
    | some envs =>
      match alGet env envs with
      | some mt => buildTargetsGo fm env (rowPut m mt.query acc) rest
      | none => Except.error CloudMonError.EnvNotSupported
    | none => buildTargetsGo fm env acc rest

/-- Entry point of the target-map construction. -/
def buildTargets (fm : List (String × List (String × FlagMetric))) (env : String)
    (metrics : List String) : Except CloudMonError (List (String × String)) :=
  buildTargetsGo fm env [] metrics

/-- Fold the datapoints of one series into the timestamp map, from
`src/common.rs` lines 84-92: datapoints with a null value are skipped
entirely (`if val.is_some()`). -/
def insertPoints (tgt : String) (metric : FlagMetric) (pts : List (Option ℚ × Nat))
    (acc : List (Nat × List (String × Bool))) : List (Nat × List (String × Bool)) :=
  pts.foldl
    (fun a p =>
      match p.1 with
      | some _ => btPut p.2 tgt (get_metric_flag_state p.1 metric) a
      | none => a)
    acc

/-- Timestamp-map construction, from `src/common.rs` lines 74-101:
series with an unknown target are skipped with a warning; a known
target whose entry lacks the environment hits `.unwrap()` — modelled as
`none` (panic). -/
def buildMetricsMapGo (fm : List (String × List (String × FlagMetric))) (env : String)
    (acc : List (Nat × List (String × Bool))) :
    List GraphiteData → Option (List (Nat × List (String × Bool)))
  | [] => some acc
  | d :: rest =>
    match alGet d.target fm with
    | some envs =>
      match alGet env envs with
      | some metric => buildMetricsMapGo fm env (insertPoints d.target metric d.datapoints acc) rest
      | none => none
    | none => buildMetricsMapGo fm env acc rest

/-- Entry point of the timestamp-map construction. -/
def buildMetricsMap (fm : List (String × List (String × FlagMetric))) (env : String)
    (raw : List GraphiteData) : Option (List (Nat × List (String × Bool))) :=
  buildMetricsMapGo fm env [] raw

/-- Per-timestamp evaluation loop, from `src/common.rs` lines 106-149:
push `(ts, weight)` for each timestamp in ascending order; an
evaluation error aborts the whole request, discarding every point. -/
def healthLoop (evalB : EvalFn) (hm : ServiceHealthDef) :
    List (Nat × List (String × Bool)) → Except CloudMonError ServiceHealthData
  | [] => Except.ok []
  | (ts, row) :: rest =>
    match evalExprsAux evalB (contextAt hm.metrics row) 0 hm.expressions with
    | Except.ok w => (healthLoop evalB hm rest).map (fun l => (ts, w) :: l)
    | Except.error e => Except.error e

/-- The health evaluator, from `src/common.rs` (`get_service_health`),
with the Graphite response `raw` passed in and the expression evaluator
`evalB` as parameter; `none` models a panic of the Rust code. -/
def get_service_health (state : AppState) (service env : String)
    (raw : List GraphiteData) (evalB : EvalFn) :
    Option (Except CloudMonError ServiceHealthData) :=
  match alGet service state.health_metrics with
  | none => some (Except.error CloudMonError.ServiceNotSupported)
  | some hm =>
    match buildTargets state.flag_metrics env hm.metrics with
    | Except.error e => some (Except.error e)
    | Except.ok _targets =>
      match buildMetricsMap state.flag_metrics env raw with
      | none => none
      | some mm => some (healthLoop evalB hm mm)

/-- HTTP status for an evaluator error, from `src/api/v1.rs` lines
88-99: `ServiceNotSupported` and `EnvNotSupported` map to 409
(CONFLICT), everything else to 500. -/
def statusOfError : CloudMonError → Nat
  | CloudMonError.ServiceNotSupported => 409
  | CloudMonError.EnvNotSupported => 409
  | _ => 500

/-- The `/health` handler status, from `src/api/v1.rs`
(`handler_health`): an unknown service yields 409 directly; otherwise
the evaluator result maps to 200 or to `statusOfError`. -/
def handlerHealthStatus (state : AppState) (service env : String)
    (raw : List GraphiteData) (evalB : EvalFn) : Option Nat :=
  match alGet service state.health_metrics with
  | some _ =>
    (get_service_health state service env raw evalB).map
      (fun r =>
        match r with
        | Except.ok _ => 200
        | Except.error e => statusOfError e)
  | none => some 409

/-- Decidable equality for `Except`, used to evaluate concrete runs. -/
instance {ε α : Type} [DecidableEq ε] [DecidableEq α] : DecidableEq (Except ε α) := fun x y =>
  match x, y with
  | Except.ok a, Except.ok b => decidable_of_iff (a = b) (by simp)
  | Except.ok _, Except.error _ => isFalse (fun h => Except.noConfusion h)
  | Except.error _, Except.ok _ => isFalse (fun h => Except.noConfusion h)
  | Except.error e, Except.error f => decidable_of_iff (e = f) (by simp)

/-- Component attribute, from `src/sd.rs` (`struct ComponentAttribute`). -/
structure ComponentAttribute where
  name : String
  value : String
deriving DecidableEq, Repr

/-- Target component, from `src/sd.rs` (`struct Component`). -/
structure Component where
  name : String
  attributes : List ComponentAttribute
deriving DecidableEq, Repr

/-- Component returned by the dashboard, from `src/sd.rs`
(`struct StatusDashboardComponent`). -/
structure StatusDashboardComponent where
  id : Nat
  name : String
  attributes : List ComponentAttribute
deriving DecidableEq, Repr

/-- The component-id cache, from `src/sd.rs`
(`type ComponentCache = HashMap<(String, Vec<ComponentAttribute>), u32>`),
modelled as an association list; `HashMap` iteration order is
arbitrary, which the lookup claims do not depend on. -/
abbrev ComponentCache := List ((String × List ComponentAttribute) × Nat)

/-- Derived lexicographic order on attributes (`#[derive(Ord)]` on the
Rust struct orders by `name`, then `value`). -/
def attrLE (a b : ComponentAttribute) : Bool :=
  decide (a.name < b.name) || (decide (a.name = b.name) && decide (a.value ≤ b.value))

/-- Ordered insertion used by the attribute sort. -/
def attrInsert (a : ComponentAttribute) : List ComponentAttribute → List ComponentAttribute
  | [] => [a]
  | b :: rest => if attrLE a b then a :: b :: rest else b :: attrInsert a rest

/-- `attrs.sort()` of `build_component_id_cache`: sort attributes into
the canonical lexicographic order. -/
def sortAttrs (l : List ComponentAttribute) : List ComponentAttribute :=
  l.foldr attrInsert []

/-- Cache construction, from `src/sd.rs` (`build_component_id_cache`):
key each component by its name and sorted attributes.  `collect()` into
a `HashMap` keeps one entry per duplicate key; the lookup claims leave
unspecified which matching id is returned, so the association-list
model is adequate. -/
def build_component_id_cache (components : List StatusDashboardComponent) : ComponentCache :=
  components.map (fun c => ((c.name, sortAttrs c.attributes), c.id))

/-- Cache lookup, from `src/sd.rs` (`find_component_id`): filter
entries by name, then find the first whose stored attributes contain
every attribute of the target (subset matching). -/
def find_component_id (cache : ComponentCache) (target : Component) : Option Nat :=
  ((cache.filter (fun e => decide (e.1.1 = target.name))).find?
      (fun e =>
        target.attributes.all (fun ta =>
          e.1.2.any (fun ca => decide (ca.name = ta.name) && decide (ca.value = ta.value))))).map
    (fun e => e.2)

/-- Zero-pad a number to two digits. -/
def pad2 (n : Nat) : String :=
  if n < 10 then "0" ++ toString n else toString n

/-- Zero-pad a number to four digits. -/
def pad4 (n : Nat) : String :=
  if n < 10 then "000" ++ toString n
  else if n < 100 then "00" ++ toString n
  else if n < 1000 then "0" ++ toString n
  else toString n

/-- RFC3339 rendering of a UTC unix timestamp, modelling the external
chrono crate's `DateTime::from_timestamp(t, 0).to_rfc3339()` used by
`build_incident_data`: Gregorian civil-from-days conversion plus the
`+00:00` offset.  Division is Euclidean (floor for the positive
divisors used here), as in the underlying calendar algorithm. -/
def rfc3339OfTimestamp (t : Int) : String :=
  let secs : Nat := (Int.emod t 86400).toNat
  let z : Int := Int.ediv t 86400 + 719468
  let era : Int := Int.ediv z 146097
  let doe : Nat := (Int.emod z 146097).toNat
  let yoe : Nat := (doe - doe / 1460 + doe / 36524 - doe / 146096) / 365
  let doy : Nat := doe - (365 * yoe + yoe / 4 - yoe / 100)
  let mp : Nat := (5 * doy + 2) / 153
  let d : Nat := doy - (153 * mp + 2) / 5 + 1
  let m : Nat := if mp < 10 then mp + 3 else mp - 9
  let y : Int := era * 400 + (yoe : Int) + (if m ≤ 2 then 1 else 0)
  pad4 y.toNat ++ "-" ++ pad2 m ++ "-" ++ pad2 d ++ "T" ++
    pad2 (secs / 3600) ++ ":" ++ pad2 (secs % 3600 / 60) ++ ":" ++ pad2 (secs % 60) ++ "+00:00"

/-- Incident payload, from `src/sd.rs` (`struct IncidentData`). -/
structure IncidentData where
  title : String
  description : String
  impact : Nat
  components : List Nat
  start_date : String
  system : Bool
  incident_type : String
deriving DecidableEq, Repr

/-- Incident construction, from `src/sd.rs` (`build_incident_data`). -/
def build_incident_data (component_id : Nat) (impact : Nat) (timestamp : Int) : IncidentData :=
  { title := "System incident from monitoring system"
    description :=
      "System-wide incident affecting one or multiple components. Created automatically."
    impact := impact
    components := [component_id]
    start_date := rfc3339OfTimestamp (timestamp - 1)
    system := true
    incident_type := "incident" }

/-- Sanity check of the RFC3339 encoder at the epoch. -/
theorem rfc3339_epoch : rfc3339OfTimestamp 0 = "1970-01-01T00:00:00+00:00" := by decide

/-- Sanity check of the RFC3339 encoder on a leap day. -/
theorem rfc3339_leap_day : rfc3339OfTimestamp 951827696 = "2000-02-29T12:34:56+00:00" := by decide

/-- Sanity check of the RFC3339 encoder one second before the epoch. -/
theorem rfc3339_before_epoch : rfc3339OfTimestamp (-1) = "1969-12-31T23:59:59+00:00" := by decide

/-- Claim C5: the flag of a missing sample is false, and the flag of a
present sample is exactly the strict comparison of the value against
the threshold selected by the metric's comparator. -/
theorem c5_flag_contract (m : FlagMetric) (v : ℚ) :
    get_metric_flag_state none m = false
    ∧ (m.op = CmpType.Lt → (get_metric_flag_state (some v) m = true ↔ v < m.threshold))
    ∧ (m.op = CmpType.Gt → (get_metric_flag_state (some v) m = true ↔ v > m.threshold))
    ∧ (m.op = CmpType.Eq → (get_metric_flag_state (some v) m = true ↔ v = m.threshold)) := by
  refine ⟨rfl, ?_, ?_, ?_⟩ <;> intro hop <;> simp [get_metric_flag_state, hop]

/-- Witness for C5: a concrete sample above a `gt` threshold triggers
the flag, and a missing sample does not. -/
theorem c5_flag_contract_witness :
    get_metric_flag_state (some 5) ⟨"q", CmpType.Gt, 2⟩ = true
    ∧ get_metric_flag_state none ⟨"q", CmpType.Gt, 2⟩ = false := by
  have h := c5_flag_contract ⟨"q", CmpType.Gt, 2⟩ 5
  exact ⟨(h.2.2.1 rfl).mpr (by norm_num), h.1⟩

/-- Claim C8: `build_incident_data` fills every field as specified —
the start date is the RFC3339 encoding of the timestamp minus one
second, the impact is the given weight, the component list is exactly
the given id, and the static fields have the documented values; the
final conjunct grounds the encoder on a concrete timestamp. -/
theorem c8_incident_data_fields :
    (∀ (cid impact : Nat) (ts : Int),
      (build_incident_data cid impact ts).start_date = rfc3339OfTimestamp (ts - 1)
      ∧ (build_incident_data cid impact ts).impact = impact
      ∧ (build_incident_data cid impact ts).components = [cid]
      ∧ (build_incident_data cid impact ts).system = true
      ∧ (build_incident_data cid impact ts).incident_type = "incident"
      ∧ (build_incident_data cid impact ts).title = "System incident from monitoring system"
      ∧ (build_incident_data cid impact ts).description =
          "System-wide incident affecting one or multiple components. Created automatically.")
    ∧ (build_incident_data 7 2 1609459200).start_date = "2020-12-31T23:59:59+00:00" := by
  exact ⟨fun cid impact ts => ⟨rfl, rfl, rfl, rfl, rfl, rfl, rfl⟩, by decide⟩

/-- Claim C9: `find_component_id` succeeds exactly when some cache
entry has the target's name and stores a superset of the target's
attributes, and any returned id is the id of such an entry. -/
theorem c9_find_component_subset_match (cache : ComponentCache) (target : Component) :
    ((∃ id, find_component_id cache target = some id) ↔
      ∃ e ∈ cache, e.1.1 = target.name
        ∧ ∀ ta ∈ target.attributes, ∃ ca ∈ e.1.2, ca.name = ta.name ∧ ca.value = ta.value)
    ∧ ∀ id, find_component_id cache target = some id →
        ∃ e ∈ cache, e.1.1 = target.name
          ∧ (∀ ta ∈ target.attributes, ∃ ca ∈ e.1.2, ca.name = ta.name ∧ ca.value = ta.value)
          ∧ e.2 = id := by
  constructor
  · constructor
    · rintro ⟨id, hid⟩
      unfold find_component_id at hid
      rcases Option.map_eq_some'.mp hid with ⟨e, he, -⟩
      have hmem := List.mem_of_find?_eq_some he
      have hpred := List.find?_some he
      rcases List.mem_filter.mp hmem with ⟨hcache, hname⟩
      refine ⟨e, hcache, by simpa using hname, ?_⟩
      intro ta hta
      have := (List.all_eq_true.mp hpred) ta hta
      rcases List.any_eq_true.mp this with ⟨ca, hca, hcaeq⟩
      simp only [Bool.and_eq_true, decide_eq_true_eq] at hcaeq
      exact ⟨ca, hca, hcaeq.1, hcaeq.2⟩
    · rintro ⟨e, hcache, hname, hsub⟩
      have hfmem : e ∈ cache.filter (fun e => decide (e.1.1 = target.name)) :=
        List.mem_filter.mpr ⟨hcache, by simpa using hname⟩
      have hpred :
          (target.attributes.all fun ta =>
            e.1.2.any fun ca =>
              decide (ca.name = ta.name) && decide (ca.value = ta.value)) = true := by
        refine List.all_eq_true.mpr ?_
        intro ta hta
        rcases hsub ta hta with ⟨ca, hca, h1, h2⟩
        exact List.any_eq_true.mpr ⟨ca, hca, by simp [h1, h2]⟩
      have : ((cache.filter (fun e => decide (e.1.1 = target.name))).find?
          (fun e =>
            target.attributes.all (fun ta =>
              e.1.2.any (fun ca =>
                decide (ca.name = ta.name) && decide (ca.value = ta.value))))).isSome := by
        rw [List.find?_isSome]
        exact ⟨e, hfmem, hpred⟩
      rcases Option.isSome_iff_exists.mp this with ⟨e1, he1⟩
      exact ⟨e1.2, by unfold find_component_id; rw [he1]; rfl⟩
  · intro id hid
    unfold find_component_id at hid
    rcases Option.map_eq_some'.mp hid with ⟨e, he, hide⟩
    have hmem := List.mem_of_find?_eq_some he
    have hpred := List.find?_some he
    rcases List.mem_filter.mp hmem with ⟨hcache, hname⟩
    refine ⟨e, hcache, by simpa using hname, ?_, hide⟩
    intro ta hta
    have := (List.all_eq_true.mp hpred) ta hta
    rcases List.any_eq_true.mp this with ⟨ca, hca, hcaeq⟩
    simp only [Bool.and_eq_true, decide_eq_true_eq] at hcaeq
    exact ⟨ca, hca, hcaeq.1, hcaeq.2⟩

/-- Reducing a weight modulo 256 does not change its u8 image. -/
theorem wu8_emod (w : Int) : wu8 (w % 256) = wu8 w := by
  unfold wu8
  rw [Int.emod_emod_of_dvd _ (dvd_refl 256)]

/-- The expression walk only sees weights through the u8 cast. -/
theorem evalExprsAux_weights_mod_256 (evalB : EvalFn) (ctx : Ctx) :
    ∀ (exprs : List MetricExpressionDef) (best : Nat),
      evalExprsAux evalB ctx best (exprs.map (fun e => ⟨e.expression, e.weight % 256⟩)) =
      evalExprsAux evalB ctx best exprs := by
  intro exprs
  induction exprs with
  | nil => intro best; rfl
  | cons e rest ih =>
    intro best
    simp only [List.map_cons, evalExprsAux, wu8_emod]
    by_cases h : wu8 e.weight ≤ best
    · rw [if_pos h, if_pos h, ih]
    · rw [if_neg h, if_neg h]
      cases hEv : evalB e.expression ctx with
      | ok b => cases b <;> simp [ih]
      | error err => rfl

/-- Claim C10: expression weights are consumed modulo 256 — the walk
behaves identically when every configured weight is replaced by its
value mod 256; the u8 cast sends 256 to 0 and -1 to 255, so a true
expression of configured weight 256 is skipped (weight 0 never exceeds
the initial best) while one of weight -1 yields 255. -/
theorem c10_weight_mod_256 :
    (∀ (evalB : EvalFn) (ctx : Ctx) (best : Nat) (exprs : List MetricExpressionDef),
      evalExprsAux evalB ctx best (exprs.map (fun e => ⟨e.expression, e.weight % 256⟩)) =
      evalExprsAux evalB ctx best exprs)
    ∧ wu8 256 = 0
    ∧ wu8 (-1) = 255
    ∧ evalExprsAux (fun _ _ => Except.ok true) [] 0 [⟨"always", 256⟩] = Except.ok 0
    ∧ evalExprsAux (fun _ _ => Except.ok true) [] 0 [⟨"always", -1⟩] = Except.ok 255 := by
  refine ⟨fun evalB ctx best exprs => evalExprsAux_weights_mod_256 evalB ctx exprs best,
    by decide, by decide, by decide, by decide⟩

/-- When every expression of the list evaluates without error, the
expression walk returns the running maximum of the u8 weights of the
true expressions, folded from the initial best. -/
theorem evalExprsAux_ok (evalB : EvalFn) (ctx : Ctx) :
    ∀ (exprs : List MetricExpressionDef),
      (∀ e ∈ exprs, ∃ b, evalB e.expression ctx = Except.ok b) →
      ∀ best, evalExprsAux evalB ctx best exprs =
        Except.ok (exprs.foldl
          (fun acc e =>
            match evalB e.expression ctx with
            | Except.ok true => max acc (wu8 e.weight)
            | _ => acc)
          best) := by
  intro exprs
  induction exprs with
  | nil => intro _ best; rfl
  | cons e rest ih =>
    intro hok best
    rcases hok e (by simp) with ⟨b, hb⟩
    have hrest : ∀ x ∈ rest, ∃ c, evalB x.expression ctx = Except.ok c :=
      fun x hx => hok x (by simp [hx])
    by_cases h : wu8 e.weight ≤ best
    · cases b with
      | false =>
        simp only [evalExprsAux, List.foldl_cons, hb, if_pos h]
        exact ih hrest best
      | true =>
        simp only [evalExprsAux, List.foldl_cons, hb, if_pos h, Nat.max_eq_left h]
        exact ih hrest best
    · cases b with
      | false =>
        simp only [evalExprsAux, List.foldl_cons, hb, if_neg h]
        exact ih hrest best
      | true =>
        have hle : best ≤ wu8 e.weight := Nat.le_of_not_le h
        simp only [evalExprsAux, List.foldl_cons, hb, if_neg h, Nat.max_eq_right hle]
        exact ih hrest (wu8 e.weight)

/-- When every expression evaluates without error at every timestamp
of the map, the per-timestamp loop emits exactly one (ts, weight) pair
per map entry, the weight being the spec-side maximum. -/
theorem healthLoop_ok (evalB : EvalFn) (hm : ServiceHealthDef) :
    ∀ (mm : List (Nat × List (String × Bool))),
      (∀ p ∈ mm, ∀ e ∈ hm.expressions, ∃ b, evalB e.expression (contextAt hm.metrics p.2) = Except.ok b) →
      healthLoop evalB hm mm =
        Except.ok (mm.map
          (fun p => (p.1, spec_max_true_weight evalB (contextAt hm.metrics p.2) hm.expressions))) := by
  intro mm
  induction mm with
  | nil => intro _; rfl
  | cons p rest ih =>
    intro hok
    obtain ⟨ts, row⟩ := p
    have hhead := hok (ts, row) (by simp)
    simp only [healthLoop,
      evalExprsAux_ok evalB (contextAt hm.metrics (ts, row).2) hm.expressions hhead 0]
    rw [ih (fun q hq => hok q (by simp [hq]))]
    rfl

/-- Characterization of a successful evaluator run: with the service
found, the target map built, the timestamp map built and every
expression evaluating without error, the output is exactly the list of
(ts, spec-maximum-weight) pairs of the timestamp map. -/
theorem get_service_health_ok_char (state : AppState) (service env : String)
    (raw : List GraphiteData) (evalB : EvalFn) (hm : ServiceHealthDef)
    (mm : List (Nat × List (String × Bool)))
    (hsvc : alGet service state.health_metrics = some hm)
    (htg : ∃ t, buildTargets state.flag_metrics env hm.metrics = Except.ok t)
    (hmm : buildMetricsMap state.flag_metrics env raw = some mm)
    (hok : ∀ p ∈ mm, ∀ e ∈ hm.expressions,
      ∃ b, evalB e.expression (contextAt hm.metrics p.2) = Except.ok b) :
    get_service_health state service env raw evalB =
      some (Except.ok (mm.map
        (fun p => (p.1, spec_max_true_weight evalB (contextAt hm.metrics p.2) hm.expressions)))) := by
  rcases htg with ⟨t, ht⟩
  simp only [get_service_health, hsvc, ht, hmm]
  exact congrArg some (healthLoop_ok evalB hm mm hok)

/-- Claim C1: for every run and every timestamp of the flag map, the
emitted weight is the maximum among the (u8) weights of the expressions
that evaluate to true in that timestamp's context, 0 when none does
(ties go to the first declared expression, which establishes the bar);
moreover an expression whose weight does not strictly exceed the
current best is skipped without being evaluated — the walk's result
does not depend on the evaluator's behaviour on such an expression. -/
theorem c1_weight_is_max_true_weight (state : AppState) (service env : String)
    (raw : List GraphiteData) (evalB : EvalFn) (hm : ServiceHealthDef)
    (mm : List (Nat × List (String × Bool))) (pts : ServiceHealthData)
    (hsvc : alGet service state.health_metrics = some hm)
    (hmm : buildMetricsMap state.flag_metrics env raw = some mm)
    (hok : ∀ p ∈ mm, ∀ e ∈ hm.expressions,
      ∃ b, evalB e.expression (contextAt hm.metrics p.2) = Except.ok b)
    (hrun : get_service_health state service env raw evalB = some (Except.ok pts)) :
    pts = mm.map
      (fun p => (p.1, spec_max_true_weight evalB (contextAt hm.metrics p.2) hm.expressions))
    ∧ ∀ (evB : EvalFn) (ctx : Ctx) (e : MetricExpressionDef)
        (rest : List MetricExpressionDef) (best : Nat),
        wu8 e.weight ≤ best →
        evalExprsAux evB ctx best (e :: rest) = evalExprsAux evB ctx best rest := by
  constructor
  · cases htg : buildTargets state.flag_metrics env hm.metrics with
    | error e =>
      simp [get_service_health, hsvc, htg] at hrun
    | ok t =>
      have hchar := get_service_health_ok_char state service env raw evalB hm mm hsvc ⟨t, htg⟩ hmm hok
      have := hrun.symm.trans hchar
      simpa using this
  · intro evB ctx e rest best h
    simp [evalExprsAux, h]

/-- Concrete flag metric used by the test fixtures: flag is true when
the sample exceeds 0. -/
def fmGt0 : FlagMetric := ⟨"q", CmpType.Gt, 0⟩

/-- Fixture health definition: two metrics, one weighted disjunction. -/
def hmX : ServiceHealthDef := ⟨"svc", none, "compute", ["m1", "m2"], [⟨"m1 || m2", 1⟩]⟩

/-- Fixture application state for the service of `hmX`. -/
def stateX : AppState :=
  ⟨[("m1", [("prod", fmGt0)]), ("m2", [("prod", fmGt0)])], [("svc", hmX)]⟩

/-- Concrete expression evaluator handling the single fixture
expression as the evalexpr crate would: the disjunction of the two
context bindings. -/
def evalOr12 : EvalFn := fun s ctx =>
  if s = "m1 || m2" then
    Except.ok (((alGet "m1" ctx).getD false) || ((alGet "m2" ctx).getD false))
  else Except.error ()

/-- Fixture Graphite response: metric m1 fires at ts 100. -/
def rawA : List GraphiteData := [⟨"m1", [(some 1, 100)]⟩]

/-- Fixture Graphite response: metric m2 fires at ts 100. -/
def rawB : List GraphiteData := [⟨"m2", [(some 1, 100)]⟩]

/-- Witness for C1 at the fixture: the single emitted point carries
the spec-side maximum weight. -/
theorem c1_weight_is_max_true_weight_witness :
    [(100, 1)] = ([(100, [("m1", true)])].map
      (fun p => (p.1, spec_max_true_weight evalOr12 (contextAt hmX.metrics p.2) hmX.expressions)))
    ∧ ∀ (evB : EvalFn) (ctx : Ctx) (e : MetricExpressionDef)
        (rest : List MetricExpressionDef) (best : Nat),
        wu8 e.weight ≤ best →
        evalExprsAux evB ctx best (e :: rest) = evalExprsAux evB ctx best rest :=
  c1_weight_is_max_true_weight stateX "svc" "prod" rawA evalOr12 hmX
    [(100, [("m1", true)])] [(100, 1)] (by decide) (by decide) (by decide) (by decide)

/-- Claim C2, counterexample: two runs whose per-timestamp true-metric
sets differ (m1 fired vs m2 fired) produce identical outputs, so the
output cannot carry a `triggered` field — indeed the result type of
`get_service_health` is `Vec<(u32, u8)>`, bare (ts, weight) pairs. -/
theorem c2_counterexample_no_triggered_field :
    get_service_health stateX "svc" "prod" rawA evalOr12 =
      get_service_health stateX "svc" "prod" rawB evalOr12
    ∧ buildMetricsMap stateX.flag_metrics "prod" rawA = some [(100, [("m1", true)])]
    ∧ buildMetricsMap stateX.flag_metrics "prod" rawB = some [(100, [("m2", true)])]
    ∧ spec_triggered hmX.metrics [("m1", true)] = ["m1"]
    ∧ spec_triggered hmX.metrics [("m2", true)] = ["m2"]
    ∧ spec_triggered hmX.metrics [("m1", true)] ≠ spec_triggered hmX.metrics [("m2", true)] := by
  refine ⟨by decide, by decide, by decide, by decide, by decide, by decide⟩

/-- Claim C2, amended: every point of an evaluator output carries
exactly a timestamp and a weight — the output is precisely the list of
(ts, weight) pairs over the timestamp map, and no `triggered` list is
part of it. -/
theorem c2_output_only_ts_weight (state : AppState) (service env : String)
    (raw : List GraphiteData) (evalB : EvalFn) (hm : ServiceHealthDef)
    (mm : List (Nat × List (String × Bool)))
    (hsvc : alGet service state.health_metrics = some hm)
    (htg : ∃ t, buildTargets state.flag_metrics env hm.metrics = Except.ok t)
    (hmm : buildMetricsMap state.flag_metrics env raw = some mm)
    (hok : ∀ p ∈ mm, ∀ e ∈ hm.expressions,
      ∃ b, evalB e.expression (contextAt hm.metrics p.2) = Except.ok b) :
    get_service_health state service env raw evalB =
      some (Except.ok (mm.map
        (fun p => (p.1, spec_max_true_weight evalB (contextAt hm.metrics p.2) hm.expressions)))) :=
  get_service_health_ok_char state service env raw evalB hm mm hsvc htg hmm hok

/-- Witness for the amended C2 at the fixture. -/
theorem c2_output_only_ts_weight_witness :
    get_service_health stateX "svc" "prod" rawA evalOr12 = some (Except.ok [(100, 1)]) := by
  rw [c2_output_only_ts_weight stateX "svc" "prod" rawA evalOr12 hmX [(100, [("m1", true)])]
    (by decide) ⟨[("m1", "q"), ("m2", "q")], by decide⟩ (by decide) (by decide)]
  decide

/-- The target walk fails exactly when some metric of the list has a
flag-table entry that lacks the requested environment; metrics absent
from the table entirely never cause a failure. -/
theorem buildTargetsGo_error_iff (fm : List (String × List (String × FlagMetric))) (env : String) :
    ∀ (metrics : List String) (acc : List (String × String)),
      (buildTargetsGo fm env acc metrics = Except.error CloudMonError.EnvNotSupported ↔
        ∃ m ∈ metrics, ∃ envs, alGet m fm = some envs ∧ alGet env envs = none) := by
  intro metrics
  induction metrics with
  | nil =>
    intro acc
    simp [buildTargetsGo]
  | cons m rest ih =>
    intro acc
    cases h1 : alGet m fm with
    | none =>
      simp only [buildTargetsGo, h1, ih]
      constructor
      · rintro ⟨x, hx, hex⟩
        exact ⟨x, by simp [hx], hex⟩
      · rintro ⟨x, hx, envs, hxe, hxo⟩
        rcases List.mem_cons.mp hx with hxm | hxr
        · subst hxm
          rw [h1] at hxe
          exact absurd hxe (by simp)
        · exact ⟨x, hxr, envs, hxe, hxo⟩
    | some envs =>
      cases h2 : alGet env envs with
      | none =>
        simp only [buildTargetsGo, h1, h2]
        constructor
        · intro _
          exact ⟨m, by simp, envs, h1, h2⟩
        · intro _
          trivial
      | some mt =>
        simp only [buildTargetsGo, h1, h2, ih]
        constructor
        · rintro ⟨x, hx, hex⟩
          exact ⟨x, by simp [hx], hex⟩
        · rintro ⟨x, hx, envs1, hxe, hxo⟩
          rcases List.mem_cons.mp hx with hxm | hxr
          · subst hxm
            rw [h1] at hxe
            rcases Option.some_inj.mp hxe with rfl
            rw [h2] at hxo
            exact absurd hxo (by simp)
          · exact ⟨x, hxr, envs1, hxe, hxo⟩

/-- The target walk can only fail with `EnvNotSupported`. -/
theorem buildTargetsGo_error_val (fm : List (String × List (String × FlagMetric))) (env : String) :
    ∀ (metrics : List String) (acc : List (String × String)) (e : CloudMonError),
      buildTargetsGo fm env acc metrics = Except.error e → e = CloudMonError.EnvNotSupported := by
  intro metrics
  induction metrics with
  | nil =>
    intro acc e h
    exact absurd h (by simp [buildTargetsGo])
  | cons m rest ih =>
    intro acc e h
    cases h1 : alGet m fm with
    | none =>
      simp only [buildTargetsGo, h1] at h
      exact ih acc e h
    | some envs =>
      cases h2 : alGet env envs with
      | none =>
        simp only [buildTargetsGo, h1, h2] at h
        exact (Except.error.inj h).symm
      | some mt =>
        simp only [buildTargetsGo, h1, h2] at h
        exact ih _ e h

/-- Claim C3, counterexample: service svc2 references metric "ghost",
which has no entry in the flag-metric table at all — so it has no
FlagMetric binding for environment "prod" — yet the evaluator does not
return `EnvNotSupported`: the metric is silently skipped and the run
succeeds. -/
theorem c3_counterexample_unknown_metric_skipped :
    alGet "ghost" (⟨[], [("svc2", ⟨"svc2", none, "c", ["ghost"], []⟩)]⟩ : AppState).flag_metrics
      = none
    ∧ get_service_health ⟨[], [("svc2", ⟨"svc2", none, "c", ["ghost"], []⟩)]⟩ "svc2" "prod" []
        evalOr12 = some (Except.ok [])
    ∧ get_service_health ⟨[], [("svc2", ⟨"svc2", none, "c", ["ghost"], []⟩)]⟩ "svc2" "prod" []
        evalOr12 ≠ some (Except.error CloudMonError.EnvNotSupported) := by
  refine ⟨by decide, by decide, by decide⟩

/-- Claim C3, amended: the evaluator returns `ServiceNotSupported` when
the service has no health definition, and `EnvNotSupported` when some
metric of the service that is present in the flag-metric table lacks a
binding for the requested environment; metrics absent from the table
entirely are skipped without error.  The HTTP layer maps both errors to
status 409. -/
theorem c3_service_env_errors_409 (state : AppState) (service env : String)
    (raw : List GraphiteData) (evalB : EvalFn) :
    (alGet service state.health_metrics = none →
      get_service_health state service env raw evalB =
        some (Except.error CloudMonError.ServiceNotSupported)
      ∧ handlerHealthStatus state service env raw evalB = some 409)
    ∧ (∀ hm, alGet service state.health_metrics = some hm →
        (((∃ m ∈ hm.metrics, ∃ envs, alGet m state.flag_metrics = some envs
              ∧ alGet env envs = none) →
          get_service_health state service env raw evalB =
            some (Except.error CloudMonError.EnvNotSupported)
          ∧ handlerHealthStatus state service env raw evalB = some 409)
        ∧ ((¬ ∃ m ∈ hm.metrics, ∃ envs, alGet m state.flag_metrics = some envs
              ∧ alGet env envs = none) →
          ∃ t, buildTargets state.flag_metrics env hm.metrics = Except.ok t)))
    ∧ statusOfError CloudMonError.ServiceNotSupported = 409
    ∧ statusOfError CloudMonError.EnvNotSupported = 409 := by
  refine ⟨?_, ?_, rfl, rfl⟩
  · intro hnone
    have hg : get_service_health state service env raw evalB =
        some (Except.error CloudMonError.ServiceNotSupported) := by
      simp only [get_service_health, hnone]
    refine ⟨hg, ?_⟩
    simp only [handlerHealthStatus, hnone]
  · intro hm hsvc
    constructor
    · intro hex
      have htg : buildTargets state.flag_metrics env hm.metrics =
          Except.error CloudMonError.EnvNotSupported :=
        (buildTargetsGo_error_iff state.flag_metrics env hm.metrics []).mpr hex
      have hg : get_service_health state service env raw evalB =
          some (Except.error CloudMonError.EnvNotSupported) := by
        simp only [get_service_health, hsvc, htg]
      refine ⟨hg, ?_⟩
      simp only [handlerHealthStatus, hsvc, hg, Option.map_some]
      rfl
    · intro hnex
      cases htg : buildTargets state.flag_metrics env hm.metrics with
      | ok t => exact ⟨t, rfl⟩
      | error e =>
        have he : e = CloudMonError.EnvNotSupported :=
          buildTargetsGo_error_val state.flag_metrics env hm.metrics [] e htg
        subst he
        exact absurd ((buildTargetsGo_error_iff state.flag_metrics env hm.metrics []).mp htg) hnex

/-- Witness for the amended C3: a missing service yields
`ServiceNotSupported`, and a metric whose table entry lacks the
requested environment yields `EnvNotSupported` with handler status
409. -/
theorem c3_service_env_errors_409_witness :
    get_service_health ⟨[], [("svc2", ⟨"svc2", none, "c", ["ghost"], []⟩)]⟩ "nosvc" "prod" []
      evalOr12 = some (Except.error CloudMonError.ServiceNotSupported)
    ∧ get_service_health ⟨[("mw", [("staging", fmGt0)])],
        [("svcw", ⟨"svcw", none, "c", ["mw"], []⟩)]⟩ "svcw" "prod" [] evalOr12 =
      some (Except.error CloudMonError.EnvNotSupported)
    ∧ handlerHealthStatus ⟨[("mw", [("staging", fmGt0)])],
        [("svcw", ⟨"svcw", none, "c", ["mw"], []⟩)]⟩ "svcw" "prod" [] evalOr12 = some 409 := by
  refine ⟨?_, ?_, ?_⟩
  · exact ((c3_service_env_errors_409 ⟨[], [("svc2", ⟨"svc2", none, "c", ["ghost"], []⟩)]⟩
      "nosvc" "prod" [] evalOr12).1 (by decide)).1
  · exact (((c3_service_env_errors_409 ⟨[("mw", [("staging", fmGt0)])],
      [("svcw", ⟨"svcw", none, "c", ["mw"], []⟩)]⟩ "svcw" "prod" [] evalOr12).2.1
      ⟨"svcw", none, "c", ["mw"], []⟩ (by decide)).1
      ⟨"mw", by decide, [("staging", fmGt0)], by decide, by decide⟩).1
  · exact (((c3_service_env_errors_409 ⟨[("mw", [("staging", fmGt0)])],
      [("svcw", ⟨"svcw", none, "c", ["mw"], []⟩)]⟩ "svcw" "prod" [] evalOr12).2.1
      ⟨"svcw", none, "c", ["mw"], []⟩ (by decide)).1
      ⟨"mw", by decide, [("staging", fmGt0)], by decide, by decide⟩).2

/-- The expression walk can only fail with `ExpressionError`. -/
theorem evalExprsAux_error_val (evalB : EvalFn) (ctx : Ctx) :
    ∀ (exprs : List MetricExpressionDef) (best : Nat) (err : CloudMonError),
      evalExprsAux evalB ctx best exprs = Except.error err →
      err = CloudMonError.ExpressionError := by
  intro exprs
  induction exprs with
  | nil =>
    intro best err h
    exact absurd h (by simp [evalExprsAux])
  | cons e rest ih =>
    intro best err h
    rw [evalExprsAux] at h
    by_cases hw : wu8 e.weight ≤ best
    · rw [if_pos hw] at h
      exact ih best err h
    · rw [if_neg hw] at h
      cases hEv : evalB e.expression ctx with
      | ok b =>
        rw [hEv] at h
        cases b
        · exact ih best err h
        · exact ih (wu8 e.weight) err h
      | error u =>
        rw [hEv] at h
        exact (Except.error.inj h).symm

/-- If the expression walk fails at any timestamp of the map, the whole
loop fails with `ExpressionError` — no partial list of points is
returned. -/
theorem healthLoop_error (evalB : EvalFn) (hm : ServiceHealthDef) :
    ∀ (mm : List (Nat × List (String × Bool))) (p : Nat × List (String × Bool)),
      p ∈ mm →
      (∃ err, evalExprsAux evalB (contextAt hm.metrics p.2) 0 hm.expressions = Except.error err) →
      healthLoop evalB hm mm = Except.error CloudMonError.ExpressionError := by
  intro mm
  induction mm with
  | nil =>
    intro p hp
    exact absurd hp (by simp)
  | cons q rest ih =>
    intro p hp herr
    obtain ⟨ts, row⟩ := q
    rcases List.mem_cons.mp hp with hq | hr
    · subst hq
      rcases herr with ⟨err, herr⟩
      have hval := evalExprsAux_error_val evalB (contextAt hm.metrics (ts, row).2)
        hm.expressions 0 err herr
      subst hval
      simp only [healthLoop, herr]
    · cases hEv : evalExprsAux evalB (contextAt hm.metrics row) 0 hm.expressions with
      | ok w =>
        simp only [healthLoop, hEv, ih p hr herr]
        rfl
      | error e =>
        have hval := evalExprsAux_error_val evalB (contextAt hm.metrics row)
          hm.expressions 0 e hEv
        subst hval
        simp only [healthLoop, hEv]

/-- Fixture for C4: one metric, a true expression followed by an
expression of equal weight whose evaluation errors. -/
def hmC4 : ServiceHealthDef := ⟨"svc3", none, "c", ["m1"], [⟨"t", 1⟩, ⟨"bad", 1⟩]⟩

/-- Fixture state for `hmC4`. -/
def stateC4 : AppState := ⟨[("m1", [("prod", fmGt0)])], [("svc3", hmC4)]⟩

/-- Fixture evaluator: "t" evaluates to true, anything else errors. -/
def evalTB : EvalFn := fun s _ => if s = "t" then Except.ok true else Except.error ()

/-- Fixture evaluator that errors on every expression. -/
def evalAllErr : EvalFn := fun _ _ => Except.error ()

/-- Claim C4, counterexample: expression "bad" errors whenever it is
evaluated in the timestamp's context, yet the request succeeds: after
the first weight-1 expression evaluates to true, "bad" (weight 1 ≤
best 1) is skipped without being evaluated, so no `ExpressionError` is
raised. -/
theorem c4_counterexample_skipped_error_ignored :
    evalTB "bad" (contextAt hmC4.metrics [("m1", true)]) = Except.error ()
    ∧ get_service_health stateC4 "svc3" "prod" [⟨"m1", [(some 1, 100)]⟩] evalTB =
        some (Except.ok [(100, 1)])
    ∧ get_service_health stateC4 "svc3" "prod" [⟨"m1", [(some 1, 100)]⟩] evalTB ≠
        some (Except.error CloudMonError.ExpressionError) := by
  refine ⟨by decide, by decide, by decide⟩

/-- Claim C4, amended: if the expression walk at any timestamp of the
flag map yields an evaluation error (which can only happen for an
expression the walk actually evaluates, i.e. one whose weight strictly
exceeds the current best), the entire request fails with
`ExpressionError` and no partial result is returned. -/
theorem c4_eval_error_fails_request (state : AppState) (service env : String)
    (raw : List GraphiteData) (evalB : EvalFn) (hm : ServiceHealthDef)
    (mm : List (Nat × List (String × Bool))) (t : List (String × String))
    (hsvc : alGet service state.health_metrics = some hm)
    (htg : buildTargets state.flag_metrics env hm.metrics = Except.ok t)
    (hmm : buildMetricsMap state.flag_metrics env raw = some mm)
    (herr : ∃ p ∈ mm, ∃ err,
      evalExprsAux evalB (contextAt hm.metrics p.2) 0 hm.expressions = Except.error err) :
    get_service_health state service env raw evalB =
      some (Except.error CloudMonError.ExpressionError) := by
  rcases herr with ⟨p, hp, herr⟩
  simp only [get_service_health, hsvc, htg, hmm]
  exact congrArg some (healthLoop_error evalB hm mm p hp herr)

/-- Witness for the amended C4: with an evaluator that errors on the
first expression, the fixture request fails with `ExpressionError`. -/
theorem c4_eval_error_fails_request_witness :
    get_service_health stateC4 "svc3" "prod" [⟨"m1", [(some 1, 100)]⟩] evalAllErr =
      some (Except.error CloudMonError.ExpressionError) :=
  c4_eval_error_fails_request stateC4 "svc3" "prod" [⟨"m1", [(some 1, 100)]⟩] evalAllErr hmC4
    [(100, [("m1", true)])] [("m1", "q")] (by decide) (by decide) (by decide)
    ⟨(100, [("m1", true)]), by decide, CloudMonError.ExpressionError, by decide⟩

/-- Looking up a key just inserted returns the inserted value. -/
theorem alGet_rowPut_same {α : Type} (k : String) (v : α) :
    ∀ ctx : List (String × α), alGet k (rowPut k v ctx) = some v := by
  intro ctx
  induction ctx with
  | nil => simp [rowPut, alGet]
  | cons p rest ih =>
    obtain ⟨k1, v1⟩ := p
    by_cases h : k1 = k
    · subst h
      simp [rowPut, alGet]
    · simp [rowPut, alGet, h, ih]

/-- Inserting under a different key does not change a lookup. -/
theorem alGet_rowPut_other {α : Type} (k k1 : String) (v : α) (hne : k1 ≠ k) :
    ∀ ctx : List (String × α), alGet k (rowPut k1 v ctx) = alGet k ctx := by
  intro ctx
  induction ctx with
  | nil => simp [rowPut, alGet, hne]
  | cons p rest ih =>
    obtain ⟨k2, v2⟩ := p
    by_cases h : k2 = k1
    · subst h
      simp [rowPut, alGet, hne]
    · by_cases h2 : k2 = k
      · subst h2
        simp [rowPut, alGet, h]
      · simp [rowPut, alGet, h, h2, ih]

/-- Bindings whose rewritten name is not among the remaining metrics
are untouched by the rest of the context fold. -/
theorem ctxFold_untouched (row : List (String × Bool)) :
    ∀ (ms : List String) (ctx : Ctx) (k : String), k ∉ ms.map dashToUnderscore →
      alGet k (ms.foldl
        (fun ctx m => rowPut (dashToUnderscore m) ((alGet m row).getD false) ctx) ctx) =
      alGet k ctx := by
  intro ms
  induction ms with
  | nil => intro ctx k _; rfl
  | cons m rest ih =>
    intro ctx k hk
    simp only [List.map_cons, List.mem_cons, not_or] at hk
    simp only [List.foldl_cons]
    rw [ih _ k hk.2, alGet_rowPut_other k (dashToUnderscore m) _ (Ne.symm hk.1)]

/-- When the rewritten metric names are pairwise distinct, the context
binds each rewritten name to the metric's stored flag (or false). -/
theorem contextAt_lookup (row : List (String × Bool)) :
    ∀ (metrics : List String) (ctx0 : Ctx) (m : String),
      (metrics.map dashToUnderscore).Nodup → m ∈ metrics →
      alGet (dashToUnderscore m) (metrics.foldl
        (fun ctx m => rowPut (dashToUnderscore m) ((alGet m row).getD false) ctx) ctx0) =
      some ((alGet m row).getD false) := by
  intro metrics
  induction metrics with
  | nil =>
    intro ctx0 m _ hm
    exact absurd hm (by simp)
  | cons x rest ih =>
    intro ctx0 m hnd hm
    rw [List.map_cons] at hnd
    rcases List.nodup_cons.mp hnd with ⟨hx, hrest⟩
    rcases List.mem_cons.mp hm with hmx | hmr
    · subst hmx
      simp only [List.foldl_cons]
      rw [ctxFold_untouched row rest _ (dashToUnderscore m) hx, alGet_rowPut_same]
    · simp only [List.foldl_cons]
      exact ih _ m hrest hmr

/-- Datapoints with a null value contribute nothing to the fold. -/
theorem insertPoints_filter (tgt : String) (metric : FlagMetric) :
    ∀ (pts : List (Option ℚ × Nat)) (acc : List (Nat × List (String × Bool))),
      insertPoints tgt metric pts acc =
      insertPoints tgt metric (pts.filter (fun q => q.1.isSome)) acc := by
  intro pts
  induction pts with
  | nil => intro acc; rfl
  | cons p rest ih =>
    intro acc
    obtain ⟨v, ts⟩ := p
    cases v with
    | none => simpa [insertPoints] using ih acc
    | some x => simpa [insertPoints] using ih (btPut ts tgt (get_metric_flag_state (some x) metric) acc)

/-- Filtering null datapoints out of every series leaves the timestamp
map unchanged. -/
theorem buildMetricsMapGo_filter (fm : List (String × List (String × FlagMetric))) (env : String) :
    ∀ (raw : List GraphiteData) (acc : List (Nat × List (String × Bool))),
      buildMetricsMapGo fm env acc raw =
      buildMetricsMapGo fm env acc
        (raw.map (fun d => ⟨d.target, d.datapoints.filter (fun q => q.1.isSome)⟩)) := by
  intro raw
  induction raw with
  | nil => intro acc; rfl
  | cons d rest ih =>
    intro acc
    cases h1 : alGet d.target fm with
    | none =>
      simp only [List.map_cons, buildMetricsMapGo, h1]
      exact ih acc
    | some envs =>
      cases h2 : alGet env envs with
      | none => simp only [List.map_cons, buildMetricsMapGo, h1, h2]
      | some metric =>
        simp only [List.map_cons, buildMetricsMapGo, h1, h2]
        rw [← insertPoints_filter]
        exact ih _

/-- Claim C6, counterexample: metrics "a-b" and "a_b" collide after
the dash rewrite.  At ts 100 only "a_b" has a stored flag (true);
metric "a-b" has no stored flag, yet its context binding — the shared
key "a_b" — is true, not false, because the later metric's binding
overwrote it.  (Null skipping, the claim's first half, does hold.) -/
theorem c6_counterexample_dash_collision :
    buildMetricsMap [("a-b", [("prod", fmGt0)]), ("a_b", [("prod", fmGt0)])] "prod"
      [⟨"a_b", [(some 1, 100)]⟩] = some [(100, [("a_b", true)])]
    ∧ alGet "a-b" [("a_b", true)] = none
    ∧ alGet (dashToUnderscore "a-b") (contextAt ["a-b", "a_b"] [("a_b", true)]) = some true := by
  refine ⟨by decide, by decide, by decide⟩

/-- Claim C6, amended: null-valued datapoints are skipped entirely and
contribute no flag (filtering them away leaves the timestamp map
unchanged), and — provided no two metrics of the service coincide after
the '-'→'_' rewrite — every metric with no stored flag at a timestamp
is bound to false in that timestamp's context. -/
theorem c6_null_skipped_missing_false :
    (∀ (fm : List (String × List (String × FlagMetric))) (env : String)
        (raw : List GraphiteData),
      buildMetricsMap fm env raw =
      buildMetricsMap fm env
        (raw.map (fun d => ⟨d.target, d.datapoints.filter (fun q => q.1.isSome)⟩)))
    ∧ (∀ (metrics : List String) (row : List (String × Bool)) (m : String),
        (metrics.map dashToUnderscore).Nodup → m ∈ metrics → alGet m row = none →
        alGet (dashToUnderscore m) (contextAt metrics row) = some false) := by
  constructor
  · intro fm env raw
    exact buildMetricsMapGo_filter fm env raw []
  · intro metrics row m hnd hm hrow
    have := contextAt_lookup row metrics [] m hnd hm
    rw [hrow] at this
    exact this

/-- Witness for the amended C6: a dashed metric without a stored flag
is bound to false, and a null datapoint leaves the map unchanged. -/
theorem c6_null_skipped_missing_false_witness :
    alGet (dashToUnderscore "x-y") (contextAt ["x-y", "c"] [("c", true)]) = some false
    ∧ buildMetricsMap [("m1", [("prod", fmGt0)])] "prod"
        ([⟨"m1", [(none, 50), (some 1, 100)]⟩] : List GraphiteData) =
      buildMetricsMap [("m1", [("prod", fmGt0)])] "prod"
        (([⟨"m1", [(none, 50), (some 1, 100)]⟩] : List GraphiteData).map
          (fun d => ⟨d.target, d.datapoints.filter (fun q => q.1.isSome)⟩)) :=
  ⟨c6_null_skipped_missing_false.2 ["x-y", "c"] [("c", true)] "x-y" (by decide) (by decide)
    (by decide),
   c6_null_skipped_missing_false.1 [("m1", [("prod", fmGt0)])] "prod"
    ([⟨"m1", [(none, 50), (some 1, 100)]⟩] : List GraphiteData)⟩

/-- Test whether the first list begins the second (used to model the
leftmost matching of Rust `str::replace`). -/
def beginsWith : List Char → List Char → Bool
  | [], _ => true
  | _ :: _, [] => false
  | a :: as, b :: bs => decide (a = b) && beginsWith as bs

/-- Whether a pattern occurs as a contiguous substring. -/
def occursIn (pat : List Char) : List Char → Bool
  | [] => beginsWith pat []
  | c :: rest => beginsWith pat (c :: rest) || occursIn pat rest

/-- Fuel-structured scanner for Rust `str::replace`: scan left to
right, replacing each leftmost non-overlapping occurrence of k by r
(identifiers here are ASCII, so char-level scanning coincides with the
byte-level Rust scan).  One unit of fuel is spent per consumed
character, so `text.length` fuel always suffices.  The k = [] case is
never used (metric names containing '-' are nonempty). -/
def replaceAllFuel (k r : List Char) : Nat → List Char → List Char
  | 0, text => text
  | _ + 1, [] => []
  | fuel + 1, c :: rest =>
    if beginsWith k (c :: rest) then
      r ++ replaceAllFuel k r fuel (List.drop (k.length - 1) rest)
    else c :: replaceAllFuel k r fuel rest

/-- Rust `str::replace(k, r)` on char lists. -/
def replaceAll (k r text : List Char) : List Char :=
  replaceAllFuel k r text.length text

/-- Dash-to-underscore twin of a metric identifier, from
`src/types.rs` line 222 (`metric.replace("-", "_")`). -/
def twin (k : List Char) : List Char :=
  k.map (fun c => if c = '-' then '_' else c)

/-- The substitution map recorded by `process_config`
(`src/types.rs` lines 219-224): one entry per metric identifier
containing '-', mapping it to its twin.  The Rust code iterates the
`HashMap` of substitutions in unspecified order; the model applies
them in metric-list order — every theorem below either involves a
single dashed metric (making the order irrelevant) or holds for any
order. -/
def health_replacements (metrics : List (List Char)) : List (List Char × List Char) :=
  (metrics.filter (fun m => m.contains '-')).map (fun m => (m, twin m))

/-- Expression rewriting of `process_config` (`src/types.rs` lines
225-229): apply every recorded substitution in sequence by
whole-string replacement. -/
def rewrite_expression (reps : List (List Char × List Char)) (e : List Char) : List Char :=
  reps.foldl (fun acc kv => replaceAll kv.1 kv.2 acc) e

/-- The compiled expressions of one health definition, from the
`health_metrics` loop of `AppState::process_config`. -/
def process_health_expressions (metrics : List (List Char)) (exprs : List (List Char)) :
    List (List Char) :=
  exprs.map (rewrite_expression (health_replacements metrics))

/-- An expression of the shape u0 k u1 k ... k un: dash-free segments
separated by whole occurrences of the identifier k. -/
def joinSep (k : List Char) : List (List Char) → List Char
  | [] => []
  | [u] => u
  | u :: v :: rest => u ++ (k ++ joinSep k (v :: rest))

/-- The scanner's result does not depend on the fuel once the fuel
covers the text length. -/
theorem replaceAllFuel_mono (k r : List Char) :
    ∀ (fuel1 fuel2 : Nat) (text : List Char), text.length ≤ fuel1 → text.length ≤ fuel2 →
      replaceAllFuel k r fuel1 text = replaceAllFuel k r fuel2 text := by
  intro fuel1
  induction fuel1 with
  | zero =>
    intro fuel2 text h1 h2
    have : text = [] := List.eq_nil_of_length_eq_zero (Nat.le_zero.mp h1)
    subst this
    cases fuel2 <;> rfl
  | succ f1 ih =>
    intro fuel2 text h1 h2
    cases text with
    | nil => cases fuel2 <;> rfl
    | cons c rest =>
      cases fuel2 with
      | zero => exact absurd h2 (by simp)
      | succ f2 =>
        simp only [List.length_cons, Nat.succ_le_succ_iff] at h1 h2
        simp only [replaceAllFuel]
        by_cases hb : beginsWith k (c :: rest) = true
        · rw [if_pos hb, if_pos hb]
          have hd : (List.drop (k.length - 1) rest).length ≤ rest.length := by
            rw [List.length_drop]
            omega
          rw [ih f2 (List.drop (k.length - 1) rest) (le_trans hd h1) (le_trans hd h2)]
        · rw [if_neg hb, if_neg hb, ih f2 rest h1 h2]

/-- Scanner equation: empty text. -/
theorem replaceAll_nil (k r : List Char) : replaceAll k r [] = [] := by
  rfl

/-- Scanner equation: no match at the head. -/
theorem replaceAll_cons_nomatch (k r : List Char) (c : Char) (rest : List Char)
    (h : beginsWith k (c :: rest) = false) :
    replaceAll k r (c :: rest) = c :: replaceAll k r rest := by
  unfold replaceAll
  simp only [List.length_cons, replaceAllFuel, h]
  simp

/-- A list begins with itself followed by anything. -/
theorem beginsWith_append_self (k v : List Char) : beginsWith k (k ++ v) = true := by
  induction k with
  | nil => rfl
  | cons a as ih => simp [beginsWith, ih]

/-- `beginsWith` detects exactly the prefix decompositions. -/
theorem beginsWith_iff (k : List Char) :
    ∀ t : List Char, beginsWith k t = true ↔ ∃ u, t = k ++ u := by
  induction k with
  | nil =>
    intro t
    simp [beginsWith]
  | cons a as ih =>
    intro t
    cases t with
    | nil =>
      simp [beginsWith]
    | cons b bs =>
      simp only [beginsWith, Bool.and_eq_true, decide_eq_true_eq, ih bs, List.cons_append]
      constructor
      · rintro ⟨rfl, u, rfl⟩
        exact ⟨u, rfl⟩
      · rintro ⟨u, hu⟩
        obtain ⟨rfl, rfl⟩ : b = a ∧ bs = as ++ u := by
          have h1 := congrArg List.head? hu
          have h2 := congrArg List.tail hu
          simp at h1 h2
          exact ⟨h1, h2⟩
        exact ⟨rfl, u, rfl⟩

/-- Scanner equation: a match at the head consumes it and emits r. -/
theorem replaceAll_match (k r : List Char) (hk : k ≠ []) (v : List Char) :
    replaceAll k r (k ++ v) = r ++ replaceAll k r v := by
  cases k with
  | nil => exact absurd rfl hk
  | cons c k1 =>
    have hb : beginsWith (c :: k1) ((c :: k1) ++ v) = true := beginsWith_append_self _ _
    unfold replaceAll
    simp only [List.cons_append, List.length_cons, replaceAllFuel]
    rw [if_pos (by simpa using hb)]
    simp only [List.length_cons, Nat.add_sub_cancel, List.append_eq]
    rw [List.drop_left]
    congr 1
    exact replaceAllFuel_mono (c :: k1) r _ _ v (by simp) (le_refl _)

/-- `takeWhile` passes over a block that satisfies the predicate. -/
theorem takeWhile_append_all (p : Char → Bool) :
    ∀ (a b : List Char), (∀ c ∈ a, p c = true) →
      List.takeWhile p (a ++ b) = a ++ List.takeWhile p b := by
  intro a
  induction a with
  | nil => intro b _; rfl
  | cons c as ih =>
    intro b h
    simp only [List.cons_append, List.takeWhile_cons, h c (by simp)]
    simp [ih b (fun x hx => h x (by simp [hx]))]

/-- Inside a nonempty dash-free segment preceding a designated
occurrence, the scanner cannot match an identifier whose single dash
would have to align with the occurrence's dash. -/
theorem no_match_in_segment (k1 k2 : List Char) (h1 : '-' ∉ k1) (c : Char) (hc : c ≠ '-')
    (us : List Char) (hus : '-' ∉ us) (v : List Char) :
    beginsWith (k1 ++ '-' :: k2) ((c :: us) ++ ((k1 ++ '-' :: k2) ++ v)) = false := by
  cases hB : beginsWith (k1 ++ '-' :: k2) ((c :: us) ++ ((k1 ++ '-' :: k2) ++ v)) with
  | false => rfl
  | true =>
    exfalso
    obtain ⟨tail, htail⟩ := (beginsWith_iff (k1 ++ '-' :: k2) _).mp hB
    have hL := congrArg (List.takeWhile (fun x => decide (x ≠ '-'))) htail
    have hLHS : List.takeWhile (fun x => decide (x ≠ '-'))
        ((c :: us) ++ ((k1 ++ '-' :: k2) ++ v)) = (c :: us) ++ k1 := by
      rw [show (c :: us) ++ ((k1 ++ '-' :: k2) ++ v) =
          ((c :: us) ++ k1) ++ ('-' :: (k2 ++ v)) by simp]
      rw [takeWhile_append_all _ ((c :: us) ++ k1) _ ?_]
      · simp [List.takeWhile_cons]
      · intro x hx
        rcases List.mem_append.mp hx with hxc | hxk
        · rcases List.mem_cons.mp hxc with rfl | hxu
          · simpa using hc
          · simp only [decide_eq_true_eq]
            exact fun h => hus (h ▸ hxu)
        · simp only [decide_eq_true_eq]
          exact fun h => h1 (h ▸ hxk)
    have hRHS : List.takeWhile (fun x => decide (x ≠ '-')) ((k1 ++ '-' :: k2) ++ tail) = k1 := by
      rw [show (k1 ++ '-' :: k2) ++ tail = k1 ++ ('-' :: (k2 ++ tail)) by simp]
      rw [takeWhile_append_all _ k1 _ ?_]
      · simp [List.takeWhile_cons]
      · intro x hx
        simp only [decide_eq_true_eq]
        exact fun h => h1 (h ▸ hx)
    rw [hLHS, hRHS] at hL
    have := congrArg List.length hL
    simp at this
    omega

/-- A dash-free text is a fixed point of the replacement of a dashed
identifier. -/
theorem replaceAll_no_dash (k r : List Char) (hk : '-' ∈ k) :
    ∀ text : List Char, '-' ∉ text → replaceAll k r text = text := by
  intro text
  induction text with
  | nil => intro _; rfl
  | cons c rest ih =>
    intro h
    have hc : c ≠ '-' := fun hcc => h (by simp [hcc])
    have hrest : '-' ∉ rest := fun hr => h (by simp [hr])
    have hb : beginsWith k (c :: rest) = false := by
      cases hB : beginsWith k (c :: rest) with
      | false => rfl
      | true =>
        obtain ⟨tail, htail⟩ := (beginsWith_iff k _).mp hB
        exact absurd (by rw [htail]; exact List.mem_append_left tail hk) h
    rw [replaceAll_cons_nomatch k r c rest hb, ih hrest]

/-- The twin of an identifier contains no dash. -/
theorem twin_no_dash (k : List Char) : '-' ∉ twin k := by
  intro hmem
  rcases List.mem_map.mp hmem with ⟨c, hc, hfc⟩
  by_cases h : c = '-'
  · rw [if_pos h] at hfc
    exact absurd hfc (by decide)
  · rw [if_neg h] at hfc
    exact h hfc

/-- Replacing a single-dash identifier in a segment-occurrence block
keeps the result dash-free, given the rest is dash-free. -/
theorem replaceAll_segment_step (k1 k2 r : List Char) (h1 : '-' ∉ k1) (hr : '-' ∉ r) :
    ∀ u : List Char, '-' ∉ u → ∀ w : List Char,
      '-' ∉ replaceAll (k1 ++ '-' :: k2) r w →
      '-' ∉ replaceAll (k1 ++ '-' :: k2) r (u ++ ((k1 ++ '-' :: k2) ++ w)) := by
  intro u
  induction u with
  | nil =>
    intro _ w hw
    simp only [List.nil_append]
    rw [replaceAll_match (k1 ++ '-' :: k2) r (by simp) w]
    intro hmem
    rcases List.mem_append.mp hmem with hm | hm
    · exact hr hm
    · exact hw hm
  | cons c us ih =>
    intro hcu w hw
    have hc : c ≠ '-' := fun hcc => hcu (by simp [hcc])
    have hus : '-' ∉ us := fun hx => hcu (by simp [hx])
    have hb := no_match_in_segment k1 k2 h1 c hc us hus w
    rw [show (c :: us) ++ ((k1 ++ '-' :: k2) ++ w) =
        c :: (us ++ ((k1 ++ '-' :: k2) ++ w)) by simp] at hb ⊢
    rw [replaceAll_cons_nomatch _ _ _ _ hb]
    intro hmem
    rcases List.mem_cons.mp hmem with hm | hm
    · exact hc hm.symm
    · exact ih hus w hw hm

/-- Replacing a single-dash identifier by its dash-free twin in an
expression made of dash-free segments separated by occurrences of the
identifier yields a dash-free result. -/
theorem replaceAll_joinSep_no_dash (k1 k2 r : List Char) (h1 : '-' ∉ k1) (hr : '-' ∉ r) :
    ∀ segs : List (List Char), (∀ s ∈ segs, '-' ∉ s) →
      '-' ∉ replaceAll (k1 ++ '-' :: k2) r (joinSep (k1 ++ '-' :: k2) segs) := by
  intro segs
  induction segs with
  | nil =>
    intro _
    rw [show joinSep (k1 ++ '-' :: k2) [] = [] from rfl, replaceAll_nil]
    simp
  | cons u rest ih =>
    intro hsegs
    cases rest with
    | nil =>
      rw [show joinSep (k1 ++ '-' :: k2) [u] = u from rfl]
      rw [replaceAll_no_dash (k1 ++ '-' :: k2) r
        (List.mem_append_right k1 (by simp)) u (hsegs u (by simp))]
      exact hsegs u (by simp)
    | cons v rest2 =>
      rw [show joinSep (k1 ++ '-' :: k2) (u :: v :: rest2) =
          u ++ ((k1 ++ '-' :: k2) ++ joinSep (k1 ++ '-' :: k2) (v :: rest2)) from rfl]
      exact replaceAll_segment_step k1 k2 r h1 hr u (hsegs u (by simp)) _
        (ih (fun s hs => hsegs s (by simp [hs])))

/-- No dashed pattern occurs in a dash-free text. -/
theorem not_occursIn_of_no_dash (pat : List Char) (hp : '-' ∈ pat) :
    ∀ text : List Char, '-' ∉ text → occursIn pat text = false := by
  intro text
  induction text with
  | nil =>
    intro _
    cases pat with
    | nil => exact absurd hp (by simp)
    | cons a as => rfl
  | cons c rest ih =>
    intro ht
    have hb : beginsWith pat (c :: rest) = false := by
      cases hB : beginsWith pat (c :: rest) with
      | false => rfl
      | true =>
        obtain ⟨tail, htail⟩ := (beginsWith_iff pat _).mp hB
        exact absurd (by rw [htail]; exact List.mem_append_left tail hp) ht
    simp [occursIn, hb, ih (fun hx => ht (by simp [hx]))]

/-- Claim C7, counterexample: metric id "a-a_a" (which contains '-')
overlaps its own twin "a_a_a".  Rewriting the expression "a-a-a_a"
replaces the single occurrence at offset 2, but the replacement output
recreates an occurrence of "a-a_a" at offset 0: the compiled expression
"a-a_a_a" still contains the pre-compile dashed identifier.  Only one
substitution is recorded, so the HashMap iteration order is
irrelevant. -/
theorem c7_counterexample_overlapping_id :
    health_replacements [['a', '-', 'a', '_', 'a']] =
      [(['a', '-', 'a', '_', 'a'], ['a', '_', 'a', '_', 'a'])]
    ∧ rewrite_expression (health_replacements [['a', '-', 'a', '_', 'a']])
        ['a', '-', 'a', '-', 'a', '_', 'a'] = ['a', '-', 'a', '_', 'a', '_', 'a']
    ∧ occursIn ['a', '-', 'a', '_', 'a']
        (rewrite_expression (health_replacements [['a', '-', 'a', '_', 'a']])
          ['a', '-', 'a', '-', 'a', '_', 'a']) = true
    ∧ '-' ∈ (['a', '-', 'a', '_', 'a'] : List Char) := by
  refine ⟨by decide, by decide, by decide, by decide⟩

/-- Claim C7, amended: each metric id containing '-' is recorded with
its '-'→'_' twin and every expression is rewritten by sequential
whole-string replacement; for a definition whose single dashed metric
id appears in an expression as whole occurrences separating dash-free
segments, the compiled expression contains no '-' at all, hence no
occurrence of any pre-compile dashed identifier remains.  (Without the
separation proviso a replacement can recreate an occurrence when the
identifier overlaps its own twin.) -/
theorem c7_rewrite_removes_dashed_ids (k1 k2 : List Char) (h1 : '-' ∉ k1)
    (segs : List (List Char)) (hsegs : ∀ s ∈ segs, '-' ∉ s) :
    '-' ∉ rewrite_expression (health_replacements [k1 ++ '-' :: k2])
        (joinSep (k1 ++ '-' :: k2) segs)
    ∧ ∀ pat : List Char, '-' ∈ pat →
        occursIn pat (rewrite_expression (health_replacements [k1 ++ '-' :: k2])
          (joinSep (k1 ++ '-' :: k2) segs)) = false := by
  have hcont : ((k1 ++ '-' :: k2).contains '-') = true := by simp
  have hrep : health_replacements [k1 ++ '-' :: k2] =
      [(k1 ++ '-' :: k2, twin (k1 ++ '-' :: k2))] := by
    simp [health_replacements, hcont]
  have hmain : '-' ∉ replaceAll (k1 ++ '-' :: k2) (twin (k1 ++ '-' :: k2))
      (joinSep (k1 ++ '-' :: k2) segs) :=
    replaceAll_joinSep_no_dash k1 k2 _ h1 (twin_no_dash _) segs hsegs
  have heq : rewrite_expression (health_replacements [k1 ++ '-' :: k2])
      (joinSep (k1 ++ '-' :: k2) segs) =
      replaceAll (k1 ++ '-' :: k2) (twin (k1 ++ '-' :: k2))
        (joinSep (k1 ++ '-' :: k2) segs) := by
    rw [hrep]
    rfl
  rw [heq]
  exact ⟨hmain, fun pat hp => not_occursIn_of_no_dash pat hp _ hmain⟩

/-- Witness for the amended C7: rewriting "x a-b y" for metric "a-b"
leaves no dash and no occurrence of "a-b". -/
theorem c7_rewrite_removes_dashed_ids_witness :
    '-' ∉ rewrite_expression (health_replacements [['a', '-', 'b']])
        (joinSep ['a', '-', 'b'] [['x', ' '], [' ', 'y']])
    ∧ occursIn ['a', '-', 'b']
        (rewrite_expression (health_replacements [['a', '-', 'b']])
          (joinSep ['a', '-', 'b'] [['x', ' '], [' ', 'y']])) = false := by
  have h := c7_rewrite_removes_dashed_ids ['a'] ['b'] (by decide)
    [['x', ' '], [' ', 'y']] (by decide)
  exact ⟨h.1, h.2 ['a', '-', 'b'] (by decide)⟩
